import Mathlib

/-!
Verification development for the `imputime` time-series library
(`imputime/tempute.py`, `imputime/utils.py`).

The embedding models:
  * calendar dates as year/month/day triples with a proleptic-Gregorian
    ordinal (`ord`, matching `datetime.date.toordinal` / pandas `Timestamp`
    comparison at day granularity);
  * pandas `Period('M')` / `Period('Y')` indices as `midx` / the year field;
  * `pd.date_range(start, end, freq, inclusive='left')` as `dateRange`
    (for `freq='D'` the daily dates in `[start, end)`; for `freq='M'`/`'Y'`
    the month-end / year-end aligned dates in `[start, end)`, which are the
    month-ends of consecutive month indices starting at `start`'s month —
    pandas month/year frequencies are end-of-period anchored);
  * `pd.date_range(start, periods=n, freq)` as `forwardRange`;
  * numeric values as rationals `ℚ` (the linear pipeline is exact rational
    arithmetic); the exponential rate, which involves a real k-th root, is
    modelled over `ℝ`, with `Option` encoding the IEEE non-finite results
    (inf/nan) that numpy produces instead of raising.
-/

namespace Imputime

/-- Supported time units, `time_units ∈ {'days','months','years'}` in the source. -/
inductive TimeUnit
  | days
  | months
  | years
deriving DecidableEq, Repr

/-- Supported rate models, `rate_type ∈ {'linear','exponential'}` in the source. -/
inductive RateType
  | linear
  | exponential
deriving DecidableEq, Repr

/-- Error kinds raised by the source (`ValueError` for gaps / unsupported
units, `IndexError` for a missing extrapolation anchor). -/
inductive Err
  | gap
  | unsupported
  | anchorNotFound
deriving DecidableEq, Repr

deriving instance DecidableEq for Except

/-- A calendar date, year/month/day. -/
structure Date where
  y : Nat
  m : Nat
  d : Nat
deriving DecidableEq, Repr

/-- Gregorian leap-year test. -/
def isLeap (y : Nat) : Bool :=
  (y % 4 == 0 && y % 100 != 0) || y % 400 == 0

/-- Length of month `m` in a year with leap flag `l`. -/
def monthLen (l : Bool) (m : Nat) : Nat :=
  if m = 2 then (if l then 29 else 28)
  else if m = 4 ∨ m = 6 ∨ m = 9 ∨ m = 11 then 30 else 31

/-- Length of month `m` of year `y`. -/
def daysInMonth (y m : Nat) : Nat := monthLen (isLeap y) m

/-- A well-formed calendar date. -/
def Date.Valid (a : Date) : Prop :=
  1 ≤ a.y ∧ 1 ≤ a.m ∧ a.m ≤ 12 ∧ 1 ≤ a.d ∧ a.d ≤ daysInMonth a.y a.m

instance (a : Date) : Decidable a.Valid :=
  decidable_of_iff
    (1 ≤ a.y ∧ 1 ≤ a.m ∧ a.m ≤ 12 ∧ 1 ≤ a.d ∧ a.d ≤ daysInMonth a.y a.m) Iff.rfl

/-- Days in the months strictly before month `m` (leap flag `l`). -/
def dbm (l : Bool) (m : Nat) : Nat :=
  (if l ∧ 2 < m then 1 else 0) +
  match m with
  | 1 => 0
  | 2 => 31
  | 3 => 59
  | 4 => 90
  | 5 => 120
  | 6 => 151
  | 7 => 181
  | 8 => 212
  | 9 => 243
  | 10 => 273
  | 11 => 304
  | _ => 334

/-- Days strictly before year `y` (proleptic Gregorian, year 1 is first). -/
def dby (y : Nat) : Nat :=
  365 * (y - 1) + (y - 1) / 4 + (y - 1) / 400 - (y - 1) / 100

/-- Day ordinal of a date: `ord ⟨1,1,1⟩ = 1`, increasing by one per day.
This is how pandas `Timestamp`s compare and subtract at day granularity. -/
def ord (a : Date) : Nat := dby a.y + dbm (isLeap a.y) a.m + a.d

/-- Month index of a date, the embedding of `Period('M')`:
two dates subtract to their calendar-month difference. -/
def midx (a : Date) : Nat := 12 * a.y + (a.m - 1)

/-- Period index of a date at a given unit: day ordinal, month index or year.
Embeds the three branches of `gap_check`, which diff consecutive dates as
`Timedelta` days, `Period('M')` or `Period('Y')` respectively. -/
def unitIdx (u : TimeUnit) (a : Date) : Nat :=
  match u with
  | .days => ord a
  | .months => midx a
  | .years => a.y

/-- Consecutive-date difference measured in calendar periods of unit `u`
(`diff` on the date column / its period conversion in `gap_check`). -/
def unitDiff (u : TimeUnit) (a b : Date) : Int :=
  (unitIdx u b : Int) - (unitIdx u a : Int)

/-- Embedding of `utils.gap_check(dataset, time_units)`: diff consecutive
dates at the unit's granularity and raise iff some difference exceeds one
unit.  Only the date column is inspected. -/
def gap_check (dates : List Date) (u : TimeUnit) : Except Err Unit :=
  if (dates.zip dates.tail).any (fun p => decide (1 < unitDiff u p.1 p.2)) then
    Except.error Err.gap
  else
    Except.ok ()

/-- Successor date (next calendar day). -/
def nextDay (a : Date) : Date :=
  if a.d < daysInMonth a.y a.m then ⟨a.y, a.m, a.d + 1⟩
  else if a.m < 12 then ⟨a.y, a.m + 1, 1⟩
  else ⟨a.y + 1, 1, 1⟩

/-- Predecessor date (previous calendar day). -/
def prevDay (a : Date) : Date :=
  if 1 < a.d then ⟨a.y, a.m, a.d - 1⟩
  else if 1 < a.m then ⟨a.y, a.m - 1, daysInMonth a.y (a.m - 1)⟩
  else ⟨a.y - 1, 12, 31⟩

/-- The `n` consecutive days starting at `a`. -/
def dayRange (a : Date) : Nat → List Date
  | 0 => []
  | n + 1 => a :: dayRange (nextDay a) n

/-- The month-end date of the month with month index `j`
(pandas `freq='M'` dates are month-end anchored). -/
def monthEndDate (j : Nat) : Date :=
  ⟨j / 12, j % 12 + 1, daysInMonth (j / 12) (j % 12 + 1)⟩

/-- The year-end date (Dec 31) of year `y`
(pandas `freq='Y'` dates are year-end anchored). -/
def yearEndDate (y : Nat) : Date := ⟨y, 12, 31⟩

/-- First day of the month with month index `j`. -/
def firstOfMidx (j : Nat) : Date := ⟨j / 12, j % 12 + 1, 1⟩

/-- Embedding of `pd.date_range(start=s, end=e, freq, inclusive='left')`
as used by `utils.add_daterange`: for `freq='D'` all days in `[s, e)`;
for `freq='M'` (`'Y'`) all month-end (year-end) dates in `[s, e)`, i.e. the
period-ends of the period indices in `[idx s, idx e)` (the first month-end
at or after `s` is the end of `s`'s own month, and the last one before `e`
ends the period before `e`'s; the index-range characterisation is proved in
`dateRange_spec` below). -/
def dateRange (s e : Date) (u : TimeUnit) : List Date :=
  match u with
  | .days => dayRange s (ord e - ord s)
  | .months => (List.range (midx e - midx s)).map (fun k => monthEndDate (midx s + k))
  | .years => (List.range (e.y - s.y)).map (fun k => yearEndDate (s.y + k))

/-- Embedding of `pd.date_range(start=a, periods=n, freq)` as used by
`tempute.extrapolated_dataset`: `n` dates starting at `a` (days) or at the
period-end of `a`'s own period (months/years), one per consecutive period. -/
def forwardRange (a : Date) (n : Nat) (u : TimeUnit) : List Date :=
  match u with
  | .days => dayRange a n
  | .months => (List.range n).map (fun k => monthEndDate (midx a + k))
  | .years => (List.range n).map (fun k => yearEndDate (a.y + k))

/-- Iterated `nextDay`. -/
def addDaysFwd (a : Date) : Nat → Date
  | 0 => a
  | n + 1 => addDaysFwd (nextDay a) n

/-- Iterated `prevDay`. -/
def addDaysBwd (a : Date) : Nat → Date
  | 0 => a
  | n + 1 => addDaysBwd (prevDay a) n

/-- Embedding of `utils.date_delta(time_units, date, timesteps)`:
`Timedelta(days=k)` shifts by calendar days; `DateOffset(months=k)` /
`DateOffset(years=k)` shift the period and clamp the day-of-month to the
target month's length. -/
def date_delta (u : TimeUnit) (a : Date) (k : Int) : Date :=
  match u with
  | .days => if 0 ≤ k then addDaysFwd a k.toNat else addDaysBwd a (-k).toNat
  | .months =>
      let j := ((midx a : Int) + k).toNat
      ⟨j / 12, j % 12 + 1, min a.d (daysInMonth (j / 12) (j % 12 + 1))⟩
  | .years =>
      let y := ((a.y : Int) + k).toNat
      ⟨y, a.m, min a.d (daysInMonth y a.m)⟩

/-- An input row: one `(date, value)` observation.  Values are modelled as
exact rationals (the linear pipeline of the source is closed under rational
arithmetic). -/
structure Obs where
  date : Date
  value : ℚ
deriving DecidableEq, Repr

/-- Embedding of `utils.filter_data(dataset, start_date, end_date, inclusive)`:
keep rows inside the date window, with the given inclusivity.  Timestamp
comparison is day-ordinal comparison. -/
def filter_data (dataset : List Obs) (start_date end_date : Date)
    (inclusive : Bool) : List Obs :=
  if inclusive then
    dataset.filter (fun o =>
      decide (ord start_date ≤ ord o.date) && decide (ord o.date ≤ ord end_date))
  else
    dataset.filter (fun o =>
      decide (ord start_date < ord o.date) && decide (ord o.date < ord end_date))

/-- Embedding of `utils.add_bounds`: pair every observation with its
successor (`shift(-1)` + `dropna` drops the last row), yielding the
segment rows `(start, end)`. -/
def add_bounds (dataset : List Obs) : List (Obs × Obs) :=
  dataset.zip dataset.tail

/-- Embedding of the `'linear'` branch of `utils.add_rate`:
`(end - start) / timesteps`. -/
def linear_rate (v0 v1 : ℚ) (timesteps : Nat) : ℚ :=
  (v1 - v0) / timesteps

/-- Embedding of the `'linear'` branch of `utils.add_interpolated_values`
for one segment row: `[start + n * rate for n in range(timesteps)]`. -/
def interpolated_linear (v0 rate : ℚ) (timesteps : Nat) : List ℚ :=
  (List.range timesteps).map (fun n : Nat => v0 + (n : ℚ) * rate)

/-- Embedding of the `'exponential'` branch of `utils.add_rate` over `ℝ`:
`(end / start) ** (1 / timesteps)`.  `none` models the IEEE non-finite
(inf/nan) float that numpy produces when the start value is zero (division
by zero) or the value ratio is negative (fractional power of a negative
base); otherwise the rate is the real `timesteps`-th root of the ratio. -/
noncomputable def exponential_rate (v0 v1 : ℝ) (timesteps : Nat) : Option ℝ :=
  letI := Classical.propDecidable (v0 = 0 ∨ v1 / v0 < 0)
  if v0 = 0 ∨ v1 / v0 < 0 then none
  else some ((v1 / v0) ^ (((timesteps : ℝ))⁻¹ : ℝ))

/-- Embedding of the `'exponential'` branch of `utils.add_interpolated_values`
for one segment row with a (finite) rate `r`:
`[start * rate ** n for n in range(timesteps)]`. -/
noncomputable def interpolated_exponential (v0 r : ℝ) (timesteps : Nat) : List ℝ :=
  (List.range timesteps).map (fun n => v0 * r ^ n)

/-- The linear per-segment value list of the pipeline: `add_rate` followed by
`add_interpolated_values` at `rate_type = 'linear'`, with
`timesteps = len(date_range)` (`utils.add_timesteps`). -/
def linearVals (v0 v1 : ℚ) (timesteps : Nat) : List ℚ :=
  interpolated_linear v0 (linear_rate v0 v1 timesteps) timesteps

/-- One segment row's contribution to the flat output: the generated date
range zipped positionally with the generated value list (both have length
`timesteps`).  `vf` abstracts the per-segment value list (the rate-model
specific columns); the linear pipeline instantiates it with `linearVals`. -/
def segmentRows (vf : ℚ → ℚ → Nat → List ℚ) (u : TimeUnit) (a b : Obs) :
    List Obs :=
  let r := dateRange a.date b.date u
  (r.zip (vf a.value b.value r.length)).map (fun p => ⟨p.1, p.2⟩)

/-- Embedding of `tempute.interpolated_dataset`: explode the per-segment
`date_range` and interpolated-value columns in row order and pair them
positionally.  Per segment both columns have length `timesteps`, so this is
the concatenation of the per-segment zips.  (pandas `explode` of an *empty*
list would emit a NaN row; the claims below only concern segments with at
least one timestep, where the two notions agree.) -/
def interpolated_dataset (vf : ℚ → ℚ → Nat → List ℚ) (u : TimeUnit)
    (dataset : List Obs) : List Obs :=
  ((add_bounds dataset).map (fun p => segmentRows vf u p.1 p.2)).flatten

/-- The maximum day-ordinal in the dataset (`dataset['date'].max()`). -/
def max_ord (dataset : List Obs) : Nat :=
  (dataset.map (fun o => ord o.date)).foldr max 0

/-- The rows saved by `dataset[dataset['date'] == dataset['date'].max()]`
before segment building, and re-appended after flattening. -/
def lastRows (dataset : List Obs) : List Obs :=
  dataset.filter (fun o => decide (ord o.date = max_ord dataset))

/-- The shared fill pipeline: save the final row(s), build segments,
generate ranges/rates/values at unit `u`, flatten, and append the saved
final row(s).  This is the body shared by `fill_gaps`, `yearly_to_monthly`
and `monthly_to_daily` in the source. -/
def fill_with (vf : ℚ → ℚ → Nat → List ℚ) (u : TimeUnit)
    (dataset : List Obs) : List Obs :=
  interpolated_dataset vf u dataset ++ lastRows dataset

/-- Embedding of `tempute.fill_gaps(dataset, rate_type, value_column,
time_units)` at `rate_type = 'linear'` (the exponential branch changes only
the value column, abstracted by the `vf` parameter of `fill_with`).  Note:
the source performs NO gap check here. -/
def fill_gaps (dataset : List Obs) (u : TimeUnit) : List Obs :=
  fill_with linearVals u dataset

/-- Embedding of `tempute.yearly_to_monthly(dataset, rate_type,
value_column)` at `rate_type = 'linear'`: the source first runs
`gap_check(dataset, 'months')` — at MONTH granularity — then fills at
month granularity. -/
def yearly_to_monthly (dataset : List Obs) : Except Err (List Obs) :=
  match gap_check (dataset.map Obs.date) .months with
  | .error e => .error e
  | .ok _ => .ok (fill_with linearVals .months dataset)

/-- Variant of `yearly_to_monthly` that follows the spec's wording instead
(run the Gap Detector at the series' NATIVE unit, years, before subdividing
into months); used to compare the source's behaviour with the spec's. -/
def yearly_to_monthly_nativeCheck (dataset : List Obs) :
    Except Err (List Obs) :=
  match gap_check (dataset.map Obs.date) .years with
  | .error e => .error e
  | .ok _ => .ok (fill_with linearVals .months dataset)

/-- Embedding of `tempute.monthly_to_daily(dataset, rate_type, value_column)`
at `rate_type = 'linear'`: `gap_check(dataset, 'months')` then fill at day
granularity. -/
def monthly_to_daily (dataset : List Obs) : Except Err (List Obs) :=
  match gap_check (dataset.map Obs.date) .months with
  | .error e => .error e
  | .ok _ => .ok (fill_with linearVals .days dataset)

/-- Mean of a list of rationals; `none` models the NaN that `np.mean`
returns on an empty collection. -/
def np_mean (l : List ℚ) : Option ℚ :=
  if l.isEmpty then none else some (l.sum / l.length)

/-- Per-segment rate in `tempute.extrapolate`, where the source forces
`timesteps = 1` on every window row before calling `add_rate`: the linear
branch is `(end - start) / 1` and the exponential branch
`(end / start) ** (1 / 1)`, both exact rational arithmetic. -/
def extrapRate (rt : RateType) (v0 v1 : ℚ) : ℚ :=
  match rt with
  | .linear => (v1 - v0) / 1
  | .exponential => (v1 / v0) ^ (1 : ℕ)

/-- Embedding of `tempute.extrapolated_dataset(rate_type, value_column,
time_units, rate, start_date, start_value, future_timesteps)`: the forward
date range `pd.date_range(start_date, periods=future_timesteps+1, freq=…)`
zipped with `[start_value + rate*n]` (linear) or `[start_value * rate**n]`
(exponential) for `n in range(future_timesteps+1)`.  A `none` rate is the
NaN mean of an empty window; it propagates to every value (`v + nan*n` and
`v * nan**n` are nan) except the exponential element 0, where the float
rule `nan ** 0 = 1.0` makes the value exactly `start_value`. -/
def extrapolated_dataset (rt : RateType) (u : TimeUnit) (rate : Option ℚ)
    (start_date : Date) (start_value : ℚ) (future_timesteps : Nat) :
    List (Date × Option ℚ) :=
  let dates := forwardRange start_date (future_timesteps + 1) u
  let values := (List.range (future_timesteps + 1)).map (fun n =>
    match rate with
    | some r =>
        some (match rt with
              | .linear => start_value + r * n
              | .exponential => start_value * r ^ n)
    | none =>
        match rt, n with
        | .exponential, 0 => some start_value
        | _, _ => none)
  dates.zip values

/-- Embedding of `tempute.extrapolate(dataset, rate_type, value_column,
time_units, start_date, future_timesteps, past_timesteps)`:
look up the anchor value at `start_date` (IndexError if absent), compute
`rate_start_date = date_delta(time_units, start_date, past_timesteps)`
(note: `date_delta` ADDS the offset), window the data to
`[rate_start_date, start_date]` inclusive, gap-check the window, build
segments with `timesteps = 1`, average the per-segment rates with
`np.mean`, and generate the forward dataset. -/
def extrapolate (dataset : List Obs) (rt : RateType) (u : TimeUnit)
    (start_date : Date) (future_timesteps : Nat) (past_timesteps : Int) :
    Except Err (List (Date × Option ℚ)) :=
  match (dataset.filter (fun o => decide (ord o.date = ord start_date))).head? with
  | none => .error .anchorNotFound
  | some anchor =>
    let rate_start := date_delta u start_date past_timesteps
    let w := filter_data dataset rate_start start_date true
    match gap_check (w.map Obs.date) u with
    | .error e => .error e
    | .ok _ =>
      let rates := (add_bounds w).map (fun p => extrapRate rt p.1.value p.2.value)
      let average_rate := np_mean rates
      .ok (extrapolated_dataset rt u average_rate start_date anchor.value
            future_timesteps)

/-- Concrete scenario A of the spec: yearly series
`[(2020,100), (2021,150), (2022,200)]` (year-start dates, as produced by
parsing bare years). -/
def seriesA : List Obs :=
  [⟨⟨2020, 1, 1⟩, 100⟩, ⟨⟨2021, 1, 1⟩, 150⟩, ⟨⟨2022, 1, 1⟩, 200⟩]

/-- Error scenario of the spec: a yearly series with a 2-year jump. -/
def seriesB : List Obs :=
  [⟨⟨2020, 1, 1⟩, 100⟩, ⟨⟨2022, 1, 1⟩, 200⟩]

/-- Concrete scenario C of the spec: a series with a constant +10/year
linear trend. -/
def seriesC : List Obs :=
  [⟨⟨2020, 1, 1⟩, 100⟩, ⟨⟨2021, 1, 1⟩, 110⟩, ⟨⟨2022, 1, 1⟩, 120⟩]

/-! ## Calendar arithmetic lemmas -/

theorem monthLen_pos (l : Bool) (m : Nat) : 1 ≤ monthLen l m := by
  unfold monthLen
  split
  · cases l <;> norm_num
  · split <;> norm_num

theorem monthLen_le (l : Bool) (m : Nat) : monthLen l m ≤ 31 := by
  unfold monthLen
  split
  · cases l <;> norm_num
  · split <;> norm_num

theorem dbm_step (l : Bool) :
    ∀ m, m < 12 → 1 ≤ m → dbm l (m + 1) = dbm l m + monthLen l m := by
  cases l <;> decide

theorem dbm_year_close (l : Bool) :
    dbm l 12 + monthLen l 12 = 365 + (if l then 1 else 0) := by
  cases l <;> decide

theorem dbm_add_len_le (l : Bool) :
    ∀ m, m < 13 → 1 ≤ m → dbm l m + monthLen l m ≤ 365 + (if l then 1 else 0) := by
  cases l <;> decide

theorem dby_step (y : Nat) (hy : 1 ≤ y) :
    dby (y + 1) = dby y + 365 + (if isLeap y then 1 else 0) := by
  obtain ⟨a, rfl⟩ : ∃ a, y = a + 1 := ⟨y - 1, by omega⟩
  have e4 : (a + 1) / 4 = a / 4 + if 4 ∣ a + 1 then 1 else 0 := Nat.succ_div a 4
  have e100 : (a + 1) / 100 = a / 100 + if 100 ∣ a + 1 then 1 else 0 :=
    Nat.succ_div a 100
  have e400 : (a + 1) / 400 = a / 400 + if 400 ∣ a + 1 then 1 else 0 :=
    Nat.succ_div a 400
  simp only [Nat.dvd_iff_mod_eq_zero] at e4 e100 e400
  have hle : a / 100 ≤ a / 4 := Nat.div_le_div_left (by norm_num) (by norm_num)
  have hL : (isLeap (a + 1) = true) ↔
      (((a + 1) % 4 = 0 ∧ (a + 1) % 100 ≠ 0) ∨ (a + 1) % 400 = 0) := by
    simp [isLeap]
  unfold dby
  simp only [Nat.add_sub_cancel, e4, e100, e400, hL]
  clear e4 e100 e400 hL
  split_ifs <;> omega


theorem monthLen_twelve (l : Bool) : monthLen l 12 = 31 := by cases l <;> decide

theorem dbm_one (l : Bool) : dbm l 1 = 0 := by cases l <;> decide

theorem ord_mk (y m d : Nat) :
    ord ⟨y, m, d⟩ = dby y + dbm (isLeap y) m + d := rfl

theorem midx_mk (y m d : Nat) : midx ⟨y, m, d⟩ = 12 * y + (m - 1) := rfl

theorem valid_mk (y m d : Nat) :
    (Date.mk y m d).Valid ↔
      1 ≤ y ∧ 1 ≤ m ∧ m ≤ 12 ∧ 1 ≤ d ∧ d ≤ daysInMonth y m := Iff.rfl

theorem daysInMonth_pos (y m : Nat) : 1 ≤ daysInMonth y m := monthLen_pos _ _

theorem ord_pos (a : Date) (h : a.Valid) : 1 ≤ ord a := by
  obtain ⟨-, -, -, hd, -⟩ := h
  unfold ord
  omega

theorem nextDay_valid (a : Date) (h : a.Valid) : (nextDay a).Valid := by
  obtain ⟨y, m, d⟩ := a
  rw [valid_mk] at h
  obtain ⟨h1, h2, h3, h4, h5⟩ := h
  unfold nextDay
  dsimp only
  split
  · next h6 => exact (valid_mk _ _ _).mpr ⟨h1, h2, h3, by omega, by omega⟩
  · split
    · next h7 =>
      exact (valid_mk _ _ _).mpr
        ⟨h1, by omega, by omega, by norm_num, daysInMonth_pos _ _⟩
    · exact (valid_mk _ _ _).mpr
        ⟨by omega, by norm_num, by norm_num, by norm_num, daysInMonth_pos _ _⟩

theorem ord_nextDay (a : Date) (h : a.Valid) : ord (nextDay a) = ord a + 1 := by
  obtain ⟨y, m, d⟩ := a
  rw [valid_mk] at h
  obtain ⟨h1, h2, h3, h4, h5⟩ := h
  unfold daysInMonth at h5
  unfold nextDay daysInMonth
  dsimp only
  split
  · next h6 =>
    rw [ord_mk, ord_mk]
    omega
  · next h6 =>
    split
    · next h7 =>
      have hstep := dbm_step (isLeap y) m h7 h2
      rw [ord_mk, ord_mk]
      omega
    · next h7 =>
      have hm : m = 12 := by omega
      subst hm
      have hstep := dby_step y h1
      have hclose := dbm_year_close (isLeap y)
      have h1dbm := dbm_one (isLeap (y + 1))
      rw [ord_mk, ord_mk, h1dbm]
      cases hi : isLeap y <;>
        simp only [hi, if_true, if_false] at hstep hclose h5 h6 ⊢ <;> omega

theorem dayRange_length (a : Date) (n : Nat) : (dayRange a n).length = n := by
  induction n generalizing a with
  | zero => rfl
  | succ n ih => simp [dayRange, ih]

theorem dayRange_spec (a : Date) (n : Nat) (h : a.Valid) :
    (dayRange a n).map ord = List.range' (ord a) n ∧
    ∀ d ∈ dayRange a n, d.Valid := by
  induction n generalizing a with
  | zero => simp [dayRange]
  | succ n ih =>
    obtain ⟨ihm, ihv⟩ := ih (nextDay a) (nextDay_valid a h)
    refine ⟨?_, ?_⟩
    · simp only [dayRange, List.map_cons, ihm, ord_nextDay a h, List.range']
    · intro d hd
      rcases List.mem_cons.mp hd with rfl | hd
      · exact h
      · exact ihv d hd

theorem midx_monthEndDate (j : Nat) : midx (monthEndDate j) = j := by
  unfold monthEndDate
  rw [midx_mk]
  omega

theorem midx_firstOfMidx (j : Nat) : midx (firstOfMidx j) = j := by
  unfold firstOfMidx
  rw [midx_mk]
  omega

theorem monthEndDate_valid (j : Nat) (h : 12 ≤ j) : (monthEndDate j).Valid := by
  unfold monthEndDate
  exact (valid_mk _ _ _).mpr
    ⟨by omega, by omega, by omega, daysInMonth_pos _ _, le_refl _⟩

theorem nextDay_monthEnd (j : Nat) :
    nextDay (monthEndDate j) = firstOfMidx (j + 1) := by
  unfold nextDay monthEndDate firstOfMidx
  dsimp only
  rw [if_neg (lt_irrefl _)]
  split
  · next h =>
    simp only [Date.mk.injEq, and_true]
    omega
  · next h =>
    simp only [Date.mk.injEq, and_true]
    omega

theorem ord_le_ord_same_month (y m d d' : Nat) (h : d ≤ d') :
    ord ⟨y, m, d⟩ ≤ ord ⟨y, m, d'⟩ := by
  rw [ord_mk, ord_mk]
  omega

theorem ord_firstOfMidx_le_monthEnd (j : Nat) :
    ord (firstOfMidx j) ≤ ord (monthEndDate j) := by
  unfold firstOfMidx monthEndDate
  exact ord_le_ord_same_month _ _ _ _ (daysInMonth_pos _ _)

theorem ord_firstOfMidx_lt_succ (j : Nat) (h : 12 ≤ j) :
    ord (firstOfMidx j) < ord (firstOfMidx (j + 1)) := by
  have h1 := ord_firstOfMidx_le_monthEnd j
  have h2 : ord (firstOfMidx (j + 1)) = ord (monthEndDate j) + 1 := by
    rw [← nextDay_monthEnd]
    exact ord_nextDay _ (monthEndDate_valid j h)
  omega

theorem ord_firstOfMidx_mono (j k : Nat) (hj : 12 ≤ j) (h : j ≤ k) :
    ord (firstOfMidx j) ≤ ord (firstOfMidx k) := by
  induction h with
  | refl => exact le_refl _
  | @step m hm ih =>
    exact le_trans ih (le_of_lt (ord_firstOfMidx_lt_succ m (le_trans hj hm)))

theorem firstOfMidx_midx (a : Date) (h : a.Valid) :
    firstOfMidx (midx a) = ⟨a.y, a.m, 1⟩ := by
  obtain ⟨h1, h2, h3, -, -⟩ := h
  unfold firstOfMidx midx
  simp only [Date.mk.injEq, and_true]
  omega

theorem monthEnd_midx (a : Date) (h : a.Valid) :
    monthEndDate (midx a) = ⟨a.y, a.m, daysInMonth a.y a.m⟩ := by
  obtain ⟨h1, h2, h3, -, -⟩ := h
  have hy : midx a / 12 = a.y := by unfold midx; omega
  have hm : midx a % 12 + 1 = a.m := by unfold midx; omega
  unfold monthEndDate
  rw [hy, hm]

theorem twelve_le_midx (a : Date) (h : a.Valid) : 12 ≤ midx a := by
  obtain ⟨h1, h2, -, -, -⟩ := h
  unfold midx
  omega

theorem ord_lt_of_midx_lt (a b : Date) (ha : a.Valid) (hb : b.Valid)
    (h : midx a < midx b) : ord a < ord b := by
  have h12 : 12 ≤ midx a := twelve_le_midx a ha
  have e1 : ord a ≤ ord (monthEndDate (midx a)) := by
    rw [monthEnd_midx a ha]
    exact ord_le_ord_same_month a.y a.m a.d _ ha.2.2.2.2
  have e2 : ord (firstOfMidx (midx a + 1)) = ord (monthEndDate (midx a)) + 1 := by
    rw [← nextDay_monthEnd]
    exact ord_nextDay _ (monthEndDate_valid _ h12)
  have e3 : ord (firstOfMidx (midx a + 1)) ≤ ord (firstOfMidx (midx b)) :=
    ord_firstOfMidx_mono _ _ (by omega) (by omega)
  have e4 : ord (firstOfMidx (midx b)) ≤ ord b := by
    rw [firstOfMidx_midx b hb]
    exact ord_le_ord_same_month b.y b.m 1 b.d hb.2.2.2.1
  omega

theorem midx_lt_of_year_lt (a b : Date) (ha : a.Valid) (hb : b.Valid)
    (h : a.y < b.y) : midx a < midx b := by
  obtain ⟨-, -, h3, -, -⟩ := ha
  obtain ⟨-, h2', -, -, -⟩ := hb
  unfold midx
  omega

theorem ord_lt_of_year_lt (a b : Date) (ha : a.Valid) (hb : b.Valid)
    (h : a.y < b.y) : ord a < ord b :=
  ord_lt_of_midx_lt a b ha hb (midx_lt_of_year_lt a b ha hb h)

theorem ord_lt_of_unitIdx_lt (u : TimeUnit) (a b : Date) (ha : a.Valid)
    (hb : b.Valid) (h : unitIdx u a < unitIdx u b) : ord a < ord b := by
  cases u
  · exact h
  · exact ord_lt_of_midx_lt a b ha hb h
  · exact ord_lt_of_year_lt a b ha hb h

theorem yearEndDate_valid (y : Nat) (h : 1 ≤ y) : (yearEndDate y).Valid := by
  unfold yearEndDate
  refine (valid_mk _ _ _).mpr ⟨h, by norm_num, by norm_num, by norm_num, ?_⟩
  unfold daysInMonth
  rw [monthLen_twelve]

theorem ord_le_yearEnd (a : Date) (h : a.Valid) :
    ord a ≤ ord (yearEndDate a.y) := by
  obtain ⟨h1, h2, h3, h4, h5⟩ := h
  unfold daysInMonth at h5
  have hlen := dbm_add_len_le (isLeap a.y) a.m (by omega) h2
  have hclose := dbm_year_close (isLeap a.y)
  have h12 := monthLen_twelve (isLeap a.y)
  have hoa : ord a = dby a.y + dbm (isLeap a.y) a.m + a.d := rfl
  unfold yearEndDate
  simp only [ord_mk]
  cases hi : isLeap a.y <;>
    simp only [hi, if_true, if_false] at hlen hclose h5 h12 hoa ⊢ <;> omega

theorem range'_eq_map (s n : Nat) :
    List.range' s n = (List.range n).map (fun k => s + k) := by
  rw [List.range_eq_range', List.map_add_range', Nat.add_zero]

theorem chain_of_map_range' {α : Type} (f : α → Nat) (l : List α) :
    ∀ (s n : Nat), l.map f = List.range' s n →
      List.Chain' (fun a b => f b = f a + 1) l := by
  induction l with
  | nil => exact fun s n h => List.chain'_nil
  | cons a t ih =>
    intro s n h
    cases n with
    | zero => simp [List.range'] at h
    | succ n =>
      simp only [List.range', List.map_cons, List.cons.injEq] at h
      obtain ⟨ha, ht⟩ := h
      cases t with
      | nil => exact List.chain'_singleton a
      | cons b t' =>
        refine List.chain'_cons.mpr ⟨?_, ih (s + 1) n ht⟩
        cases n with
        | zero => simp [List.range'] at ht
        | succ n' =>
          simp only [List.range', List.map_cons, List.cons.injEq] at ht
          omega

theorem zip_tail_forall {α : Type} (R : α → α → Prop) :
    ∀ (l : List α), List.Chain' R l ↔ ∀ p ∈ l.zip l.tail, R p.1 p.2
  | [] => by simp
  | [a] => by simp
  | a :: b :: t => by
    have ih := zip_tail_forall R (b :: t)
    rw [List.chain'_cons, ih]
    simp only [List.tail_cons, List.zip_cons_cons, List.forall_mem_cons]

theorem gap_check_ok_iff (dates : List Date) (u : TimeUnit) :
    gap_check dates u = Except.ok () ↔
      List.Chain' (fun a b => unitDiff u a b ≤ 1) dates := by
  have hany : ((dates.zip dates.tail).any
      (fun p => decide (1 < unitDiff u p.1 p.2)) = true) ↔
      ∃ p ∈ dates.zip dates.tail, 1 < unitDiff u p.1 p.2 := by
    simp [List.any_eq_true]
  rw [zip_tail_forall]
  unfold gap_check
  split
  · next hc =>
    rw [hany] at hc
    obtain ⟨p, hp, hlt⟩ := hc
    constructor
    · intro h
      exact absurd h (by simp)
    · intro hall
      exact absurd (hall p hp) (by omega)
  · next hc =>
    rw [hany] at hc
    push_neg at hc
    constructor
    · intro _ p hp
      have := hc p hp
      omega
    · intro _
      rfl

theorem gap_check_error_iff (dates : List Date) (u : TimeUnit) :
    gap_check dates u = Except.error Err.gap ↔
      ¬ List.Chain' (fun a b => unitDiff u a b ≤ 1) dates := by
  rw [← gap_check_ok_iff]
  unfold gap_check
  split <;> simp

theorem monthEnd_ord_mono (j j' : Nat) (h12 : 12 ≤ j) (h : j < j') :
    ord (monthEndDate j) < ord (monthEndDate j') := by
  refine ord_lt_of_midx_lt _ _ (monthEndDate_valid j h12)
    (monthEndDate_valid j' (by omega)) ?_
  rw [midx_monthEndDate, midx_monthEndDate]
  exact h

theorem ord_le_monthEnd_self (a : Date) (h : a.Valid) :
    ord a ≤ ord (monthEndDate (midx a)) := by
  rw [monthEnd_midx a h]
  exact ord_le_ord_same_month a.y a.m a.d _ h.2.2.2.2

/-- Characterisation of the generated interpolation ranges, for every unit:
the period indices of the generated dates are exactly the half-open index
interval `[idx start, idx end)` in increasing consecutive order, every
generated date is well-formed and lies in the half-open date interval
`[start, end)`, and the first generated date is `start` itself for the
`days` unit but the period-END of `start`'s period for `months`/`years`. -/
theorem dateRange_spec (u : TimeUnit) (s e : Date) (hs : s.Valid)
    (he : e.Valid) (h : unitIdx u s < unitIdx u e) :
    ((dateRange s e u).map (unitIdx u) =
      List.range' (unitIdx u s) (unitIdx u e - unitIdx u s)) ∧
    (∀ d ∈ dateRange s e u, d.Valid ∧ ord s ≤ ord d ∧ ord d < ord e) ∧
    (dateRange s e u).head? = some (match u with
      | .days => s
      | .months => monthEndDate (midx s)
      | .years => yearEndDate s.y) := by
  cases u
  case days =>
    obtain ⟨hmap, hval⟩ := dayRange_spec s (ord e - ord s) hs
    refine ⟨hmap, ?_, ?_⟩
    · intro d hd
      have hordd : ord d ∈ List.range' (ord s) (ord e - ord s) := by
        rw [← hmap]
        exact List.mem_map_of_mem ord hd
      have hb := List.mem_range'_1.mp hordd
      exact ⟨hval d hd, hb.1, by
        have : unitIdx TimeUnit.days s < unitIdx TimeUnit.days e := h
        simp only [unitIdx] at this
        omega⟩
    · have hpos : 0 < ord e - ord s := by
        have : unitIdx TimeUnit.days s < unitIdx TimeUnit.days e := h
        simp only [unitIdx] at this
        omega
      obtain ⟨n, hn⟩ : ∃ n, ord e - ord s = n + 1 := ⟨ord e - ord s - 1, by omega⟩
      show (dateRange s e TimeUnit.days).head? = some s
      unfold dateRange
      rw [hn]
      rfl
  case months =>
    have hlt : midx s < midx e := h
    have h12 : 12 ≤ midx s := twelve_le_midx s hs
    refine ⟨?_, ?_, ?_⟩
    · show ((List.range (midx e - midx s)).map
          (fun k => monthEndDate (midx s + k))).map midx = _
      rw [List.map_map, range'_eq_map]
      congr 1
      funext k
      simp [midx_monthEndDate, unitIdx]
    · intro d hd
      simp only [dateRange, List.mem_map, List.mem_range] at hd
      obtain ⟨k, hk, rfl⟩ := hd
      have hv : (monthEndDate (midx s + k)).Valid :=
        monthEndDate_valid _ (by omega)
      refine ⟨hv, ?_, ?_⟩
      · rcases Nat.eq_zero_or_pos k with rfl | hkpos
        · simpa using ord_le_monthEnd_self s hs
        · have := monthEnd_ord_mono (midx s) (midx s + k) h12 (by omega)
          have h0 := ord_le_monthEnd_self s hs
          omega
      · refine ord_lt_of_midx_lt _ _ hv he ?_
        rw [midx_monthEndDate]
        omega
    · obtain ⟨n, hn⟩ : ∃ n, midx e - midx s = n + 1 :=
        ⟨midx e - midx s - 1, by omega⟩
      show ((List.range (midx e - midx s)).map
          (fun k => monthEndDate (midx s + k))).head? = _
      rw [hn, List.range_succ_eq_map]
      simp
  case years =>
    have hlt : s.y < e.y := h
    have hy1 : 1 ≤ s.y := hs.1
    refine ⟨?_, ?_, ?_⟩
    · show ((List.range (e.y - s.y)).map
          (fun k => yearEndDate (s.y + k))).map (fun a => a.y) = _
      rw [List.map_map, range'_eq_map]
      congr 1
    · intro d hd
      simp only [dateRange, List.mem_map, List.mem_range] at hd
      obtain ⟨k, hk, rfl⟩ := hd
      have hv : (yearEndDate (s.y + k)).Valid := yearEndDate_valid _ (by omega)
      refine ⟨hv, ?_, ?_⟩
      · rcases Nat.eq_zero_or_pos k with rfl | hkpos
        · simpa using ord_le_yearEnd s hs
        · have h1 : ord s ≤ ord (yearEndDate s.y) := ord_le_yearEnd s hs
          have h2 : ord (yearEndDate s.y) < ord (yearEndDate (s.y + k)) :=
            ord_lt_of_year_lt _ _ (yearEndDate_valid _ hy1) hv (by
              show s.y < s.y + k
              omega)
          omega
      · exact ord_lt_of_year_lt _ _ hv he (by show s.y + k < e.y; omega)
    · obtain ⟨n, hn⟩ : ∃ n, e.y - s.y = n + 1 := ⟨e.y - s.y - 1, by omega⟩
      show ((List.range (e.y - s.y)).map
          (fun k => yearEndDate (s.y + k))).head? = _
      rw [hn, List.range_succ_eq_map]
      simp

theorem linearVals_length (v0 v1 : ℚ) (k : Nat) :
    (linearVals v0 v1 k).length = k := by
  unfold linearVals interpolated_linear
  rw [List.length_map, List.length_range]

theorem segmentRows_dates (vf : ℚ → ℚ → Nat → List ℚ)
    (hvf : ∀ v0 v1 k, (vf v0 v1 k).length = k) (u : TimeUnit) (a b : Obs) :
    (segmentRows vf u a b).map Obs.date = dateRange a.date b.date u := by
  unfold segmentRows
  rw [List.map_map]
  exact List.map_fst_zip _ _ (le_of_eq (hvf _ _ _).symm)

theorem interp_cons (vf : ℚ → ℚ → Nat → List ℚ) (u : TimeUnit) (a b : Obs)
    (t : List Obs) :
    interpolated_dataset vf u (a :: b :: t) =
      segmentRows vf u a b ++ interpolated_dataset vf u (b :: t) := rfl

theorem chain_le_getLast {α : Type} (f : α → Nat) :
    ∀ (l : List α) (a x : α),
      List.Chain' (fun p q => f p < f q) (a :: l) →
      (a :: l).getLast? = some x → f a ≤ f x := by
  intro l
  induction l with
  | nil =>
    intro a x _ hx
    simp only [List.getLast?_singleton, Option.some.injEq] at hx
    exact le_of_eq (congrArg f hx)
  | cons b t ih =>
    intro a x hc hx
    rw [List.chain'_cons] at hc
    rw [List.getLast?_cons_cons] at hx
    have := ih b x hc.2 hx
    omega

theorem chain_ord_of_chain_idx (u : TimeUnit) :
    ∀ (l : List Obs), (∀ o ∈ l, o.date.Valid) →
      List.Chain' (fun p q => unitIdx u p.date < unitIdx u q.date) l →
      List.Chain' (fun p q => ord p.date < ord q.date) l
  | [] => fun _ _ => List.chain'_nil
  | [a] => fun _ _ => List.chain'_singleton a
  | a :: b :: t => by
    intro hval hc
    rw [List.chain'_cons] at hc ⊢
    refine ⟨?_, chain_ord_of_chain_idx u (b :: t)
      (fun o ho => hval o (List.mem_cons_of_mem a ho)) hc.2⟩
    exact ord_lt_of_unitIdx_lt u _ _
      (hval a (List.mem_cons_self a _))
      (hval b (List.mem_cons_of_mem a (List.mem_cons_self b _))) hc.1

theorem interp_map_idx (vf : ℚ → ℚ → Nat → List ℚ)
    (hvf : ∀ v0 v1 k, (vf v0 v1 k).length = k) (u : TimeUnit) :
    ∀ (l : List Obs) (a x : Obs),
      (∀ o ∈ a :: l, o.date.Valid) →
      List.Chain' (fun p q => unitIdx u p.date < unitIdx u q.date) (a :: l) →
      (a :: l).getLast? = some x →
      ((interpolated_dataset vf u (a :: l)).map (fun o => unitIdx u o.date) =
        List.range' (unitIdx u a.date)
          (unitIdx u x.date - unitIdx u a.date)) ∧
      (∀ o ∈ interpolated_dataset vf u (a :: l), o.date.Valid) := by
  intro l
  induction l with
  | nil =>
    intro a x _ _ hx
    simp only [List.getLast?_singleton, Option.some.injEq] at hx
    subst hx
    constructor
    · show ([] : List Obs).map _ =
        List.range' _ (unitIdx u a.date - unitIdx u a.date)
      simp [List.range']
    · intro o ho
      simp [interpolated_dataset, add_bounds] at ho
  | cons b t ih =>
    intro a x hval hc hx
    rw [List.chain'_cons] at hc
    rw [List.getLast?_cons_cons] at hx
    have hvalb : ∀ o ∈ b :: t, o.date.Valid :=
      fun o ho => hval o (List.mem_cons_of_mem a ho)
    obtain ⟨ihm, ihv⟩ := ih b x hvalb hc.2 hx
    have hva : a.date.Valid := hval a (List.mem_cons_self a _)
    have hvb : b.date.Valid := hvalb b (List.mem_cons_self b _)
    obtain ⟨hmap, hmem, -⟩ := dateRange_spec u a.date b.date hva hvb hc.1
    have hbx : unitIdx u b.date ≤ unitIdx u x.date :=
      chain_le_getLast (fun o : Obs => unitIdx u o.date) t b x hc.2 hx
    have hseg : (segmentRows vf u a b).map (fun o => unitIdx u o.date) =
        List.range' (unitIdx u a.date)
          (unitIdx u b.date - unitIdx u a.date) := by
      have h2 : (segmentRows vf u a b).map (fun o => unitIdx u o.date) =
          ((segmentRows vf u a b).map Obs.date).map (unitIdx u) := by
        rw [List.map_map]
        rfl
      rw [h2, segmentRows_dates vf hvf u a b, hmap]
    constructor
    · rw [interp_cons, List.map_append, hseg, ihm]
      have happ := List.range'_append (unitIdx u a.date)
        (unitIdx u b.date - unitIdx u a.date)
        (unitIdx u x.date - unitIdx u b.date) 1
      rw [show unitIdx u a.date + 1 * (unitIdx u b.date - unitIdx u a.date) =
          unitIdx u b.date from by omega] at happ
      rw [happ]
      congr 1
      omega
    · intro o ho
      rw [interp_cons, List.mem_append] at ho
      rcases ho with ho | ho
      · have h3 : o.date ∈ (segmentRows vf u a b).map Obs.date :=
          List.mem_map_of_mem Obs.date ho
        rw [segmentRows_dates vf hvf u a b] at h3
        exact (hmem o.date h3).1
      · exact ihv o ho

theorem max_ord_cons (a : Obs) (t : List Obs) :
    max_ord (a :: t) = max (ord a.date) (max_ord t) := rfl

theorem lastRows_spec :
    ∀ (l : List Obs) (a x : Obs),
      (∀ o ∈ a :: l, o.date.Valid) →
      List.Chain' (fun p q => ord p.date < ord q.date) (a :: l) →
      (a :: l).getLast? = some x →
      max_ord (a :: l) = ord x.date ∧ lastRows (a :: l) = [x] := by
  intro l
  induction l with
  | nil =>
    intro a x hval _ hx
    simp only [List.getLast?_singleton, Option.some.injEq] at hx
    subst hx
    have h1 : 1 ≤ ord a.date := ord_pos _ (hval a (List.mem_cons_self a _))
    have hmax : max_ord [a] = ord a.date := by
      rw [max_ord_cons]
      show max (ord a.date) 0 = ord a.date
      omega
    refine ⟨hmax, ?_⟩
    unfold lastRows
    rw [hmax]
    simp
  | cons b t ih =>
    intro a x hval hc hx
    rw [List.chain'_cons] at hc
    rw [List.getLast?_cons_cons] at hx
    obtain ⟨ihmax, ihlast⟩ := ih b x
      (fun o ho => hval o (List.mem_cons_of_mem a ho)) hc.2 hx
    have hbx : ord b.date ≤ ord x.date :=
      chain_le_getLast (fun o : Obs => ord o.date) t b x hc.2 hx
    have hax : ord a.date < ord x.date := by
      have := hc.1
      omega
    have hmax : max_ord (a :: b :: t) = ord x.date := by
      rw [max_ord_cons, ihmax]
      omega
    refine ⟨hmax, ?_⟩
    unfold lastRows
    rw [hmax]
    rw [List.filter_cons_of_neg]
    · unfold lastRows at ihlast
      rw [ihmax] at ihlast
      exact ihlast
    · simp only [decide_eq_true_eq]
      omega

theorem mem_of_getLast?_eq {α : Type} {l : List α} {x : α}
    (h : l.getLast? = some x) : x ∈ l := by
  obtain ⟨hne, rfl⟩ := List.mem_getLast?_eq_getLast (l := l) (x := x)
    (by rw [h]; rfl)
  exact List.getLast_mem hne

theorem fill_with_spec (vf : ℚ → ℚ → Nat → List ℚ)
    (hvf : ∀ v0 v1 k, (vf v0 v1 k).length = k) (u : TimeUnit)
    (l : List Obs) (a x : Obs)
    (hval : ∀ o ∈ a :: l, o.date.Valid)
    (hchain :
      List.Chain' (fun p q => unitIdx u p.date < unitIdx u q.date) (a :: l))
    (hx : (a :: l).getLast? = some x) :
    ((fill_with vf u (a :: l)).map (fun o => unitIdx u o.date) =
      List.range' (unitIdx u a.date)
        (unitIdx u x.date - unitIdx u a.date + 1)) ∧
    (∀ o ∈ fill_with vf u (a :: l), o.date.Valid) ∧
    (fill_with vf u (a :: l)).getLast? = some x ∧
    fill_with vf u (a :: l) = interpolated_dataset vf u (a :: l) ++ [x] := by
  have hordchain := chain_ord_of_chain_idx u (a :: l) hval hchain
  obtain ⟨-, hlastrows⟩ := lastRows_spec l a x hval hordchain hx
  obtain ⟨hmap, hintval⟩ := interp_map_idx vf hvf u l a x hval hchain hx
  have hfw : fill_with vf u (a :: l) =
      interpolated_dataset vf u (a :: l) ++ [x] := by
    unfold fill_with
    rw [hlastrows]
  have hax : unitIdx u a.date ≤ unitIdx u x.date :=
    chain_le_getLast (fun o : Obs => unitIdx u o.date) l a x hchain hx
  refine ⟨?_, ?_, ?_, hfw⟩
  · rw [hfw, List.map_append, hmap]
    have happ := List.range'_append (unitIdx u a.date)
      (unitIdx u x.date - unitIdx u a.date) 1 1
    rw [show unitIdx u a.date +
        1 * (unitIdx u x.date - unitIdx u a.date) =
        unitIdx u x.date from by omega] at happ
    rw [show unitIdx u x.date - unitIdx u a.date + 1 =
        1 + (unitIdx u x.date - unitIdx u a.date) from by omega]
    rw [← happ]
    rfl
  · intro o ho
    rw [hfw, List.mem_append] at ho
    rcases ho with ho | ho
    · exact hintval o ho
    · rcases List.mem_singleton.mp ho with rfl
      exact hval _ (mem_of_getLast?_eq hx)
  · rw [hfw]
    simp [List.getLast?_concat]

/-- C9: for every valid input series whose dates strictly increase at the
target unit's period index (in particular every strictly contiguous series),
the flattened output of the fill pipeline (shared by `fill_gaps` and, when
their gap pre-check passes, by the resample entry points, whose `.ok`
results are exactly this pipeline's output) is strictly sorted by date,
has no duplicate dates, passes `gap_check` at the target unit, and ends
with exactly the original final observation, which appears exactly once. -/
theorem C9_flatten_invariants (vf : ℚ → ℚ → Nat → List ℚ)
    (hvf : ∀ v0 v1 k, (vf v0 v1 k).length = k) (u : TimeUnit)
    (dataset : List Obs) (hne : dataset ≠ [])
    (hval : ∀ o ∈ dataset, o.date.Valid)
    (hchain :
      List.Chain' (fun p q => unitIdx u p.date < unitIdx u q.date) dataset) :
    List.Chain' (fun p q => ord p.date < ord q.date) (fill_with vf u dataset) ∧
    ((fill_with vf u dataset).map Obs.date).Nodup ∧
    gap_check ((fill_with vf u dataset).map Obs.date) u = Except.ok () ∧
    (fill_with vf u dataset).getLast? = dataset.getLast? ∧
    (∀ x, dataset.getLast? = some x →
      (fill_with vf u dataset).countP
        (fun o => decide (o.date = x.date)) = 1) ∧
    fill_gaps dataset u = fill_with linearVals u dataset ∧
    (∀ t, yearly_to_monthly dataset = Except.ok t →
      t = fill_with linearVals TimeUnit.months dataset) ∧
    (∀ t, monthly_to_daily dataset = Except.ok t →
      t = fill_with linearVals TimeUnit.days dataset) := by
  obtain ⟨a, l, rfl⟩ : ∃ a l, dataset = a :: l := by
    cases dataset with
    | nil => exact absurd rfl hne
    | cons a l => exact ⟨a, l, rfl⟩
  have hxeq : (a :: l).getLast? =
      some ((a :: l).getLast (List.cons_ne_nil a l)) :=
    List.getLast?_eq_getLast_of_ne_nil _
  set x := (a :: l).getLast (List.cons_ne_nil a l) with hxdef
  obtain ⟨hmap, hvalout, hlast, hfw⟩ :=
    fill_with_spec vf hvf u l a x hval hchain hxeq
  have hsucc : List.Chain'
      (fun p q => unitIdx u q.date = unitIdx u p.date + 1)
      (fill_with vf u (a :: l)) :=
    chain_of_map_range' (fun o : Obs => unitIdx u o.date) _ _ _ hmap
  have hlt : List.Chain' (fun p q => unitIdx u p.date < unitIdx u q.date)
      (fill_with vf u (a :: l)) :=
    hsucc.imp (fun p q h => by omega)
  refine ⟨chain_ord_of_chain_idx u _ hvalout hlt, ?_, ?_, ?_, ?_, rfl, ?_, ?_⟩
  · have h2 : ((fill_with vf u (a :: l)).map
        (fun o : Obs => unitIdx u o.date)).Nodup := by
      rw [hmap]
      exact List.nodup_range' _ _ 1 (by norm_num)
    have h3 : (((fill_with vf u (a :: l)).map Obs.date).map
        (unitIdx u)).Nodup := by
      rw [List.map_map]
      exact h2
    exact h3.of_map _
  · refine (gap_check_ok_iff _ u).mpr ?_
    rw [List.chain'_map]
    refine hsucc.imp (fun p q h => ?_)
    unfold unitDiff
    omega
  · rw [hlast, hxeq]
  · intro x' hx'
    have hx2 : x' = x := by
      rw [hxeq] at hx'
      exact (Option.some.injEq _ _ ▸ hx').symm
    subst hx2
    obtain ⟨hmapI, -⟩ := interp_map_idx vf hvf u l a x hval hchain hxeq
    have hax : unitIdx u a.date ≤ unitIdx u x.date :=
      chain_le_getLast (fun o : Obs => unitIdx u o.date) l a x hchain hxeq
    rw [hfw, List.countP_append]
    have hzero : (interpolated_dataset vf u (a :: l)).countP
        (fun o => decide (o.date = x.date)) = 0 := by
      rw [List.countP_eq_zero]
      intro o ho
      simp only [decide_eq_true_eq]
      intro heq
      have hidx : unitIdx u o.date ∈ List.range' (unitIdx u a.date)
          (unitIdx u x.date - unitIdx u a.date) := by
        rw [← hmapI]
        exact List.mem_map_of_mem (fun o : Obs => unitIdx u o.date) ho
      have hb := List.mem_range'_1.mp hidx
      rw [heq] at hb
      omega
    rw [hzero]
    simp
  · intro t ht
    unfold yearly_to_monthly at ht
    cases hgc : gap_check ((a :: l).map Obs.date) TimeUnit.months with
    | error e =>
      rw [hgc] at ht
      exact absurd ht (by simp)
    | ok uu =>
      rw [hgc] at ht
      simp only [Except.ok.injEq] at ht
      exact ht.symm
  · intro t ht
    unfold monthly_to_daily at ht
    cases hgc : gap_check ((a :: l).map Obs.date) TimeUnit.months with
    | error e =>
      rw [hgc] at ht
      exact absurd ht (by simp)
    | ok uu =>
      rw [hgc] at ht
      simp only [Except.ok.injEq] at ht
      exact ht.symm

/-- Witness for `C9_flatten_invariants` at the 2-year-jump yearly series. -/
theorem C9_flatten_invariants_witness :
    List.Chain' (fun p q => ord p.date < ord q.date)
      (fill_with linearVals TimeUnit.years seriesB) ∧
    ((fill_with linearVals TimeUnit.years seriesB).map Obs.date).Nodup ∧
    gap_check ((fill_with linearVals TimeUnit.years seriesB).map Obs.date)
      TimeUnit.years = Except.ok () ∧
    (fill_with linearVals TimeUnit.years seriesB).getLast? =
      seriesB.getLast? ∧
    (∀ x, seriesB.getLast? = some x →
      (fill_with linearVals TimeUnit.years seriesB).countP
        (fun o => decide (o.date = x.date)) = 1) ∧
    fill_gaps seriesB TimeUnit.years =
      fill_with linearVals TimeUnit.years seriesB ∧
    (∀ t, yearly_to_monthly seriesB = Except.ok t →
      t = fill_with linearVals TimeUnit.months seriesB) ∧
    (∀ t, monthly_to_daily seriesB = Except.ok t →
      t = fill_with linearVals TimeUnit.days seriesB) :=
  C9_flatten_invariants linearVals linearVals_length TimeUnit.years seriesB
    (by decide) (by decide)
    (by unfold seriesB
        exact List.chain'_cons.mpr ⟨by decide, List.chain'_singleton _⟩)

/-- C2: `gap_check` raises exactly when some consecutive-date difference,
measured in calendar periods of the unit, exceeds one; consequently it
passes on every strictly contiguous series (all differences equal one) and
never fails on duplicate or decreasing dates (differences at most zero). -/
theorem C2_gap_check_characterisation (u : TimeUnit) (dates : List Date) :
    (gap_check dates u = Except.error Err.gap ↔
      ∃ p ∈ dates.zip dates.tail, 1 < unitDiff u p.1 p.2) ∧
    (gap_check dates u = Except.ok () ↔
      List.Chain' (fun a b => unitDiff u a b ≤ 1) dates) ∧
    (List.Chain' (fun a b => unitDiff u a b = 1) dates →
      gap_check dates u = Except.ok ()) ∧
    ((∀ p ∈ dates.zip dates.tail, unitDiff u p.1 p.2 ≤ 0) →
      gap_check dates u = Except.ok ()) := by
  refine ⟨?_, gap_check_ok_iff dates u, ?_, ?_⟩
  · rw [gap_check_error_iff, zip_tail_forall]
    push_neg
    rfl
  · intro hc
    exact (gap_check_ok_iff dates u).mpr (hc.imp (fun a b h => le_of_eq h))
  · intro hall
    refine (gap_check_ok_iff dates u).mpr ?_
    rw [zip_tail_forall]
    intro p hp
    have := hall p hp
    omega

/-- Witness for `C2_gap_check_characterisation`: a contiguous yearly series
passes, a series with a removed step fails, and a duplicated/decreasing
series passes. -/
theorem C2_gap_check_witness :
    gap_check [⟨2020, 1, 1⟩, ⟨2021, 1, 1⟩, ⟨2022, 1, 1⟩] TimeUnit.years =
      Except.ok () ∧
    gap_check [⟨2020, 1, 1⟩, ⟨2022, 1, 1⟩] TimeUnit.years =
      Except.error Err.gap ∧
    gap_check [⟨2021, 1, 1⟩, ⟨2021, 1, 1⟩, ⟨2020, 1, 1⟩] TimeUnit.years =
      Except.ok () :=
  ⟨(C2_gap_check_characterisation TimeUnit.years _).2.2.1
     (List.chain'_cons.mpr ⟨by decide,
       List.chain'_cons.mpr ⟨by decide, List.chain'_singleton _⟩⟩),
   (C2_gap_check_characterisation TimeUnit.years _).1.mpr
     ⟨(⟨2020, 1, 1⟩, ⟨2022, 1, 1⟩), by decide, by decide⟩,
   (C2_gap_check_characterisation TimeUnit.years _).2.2.2 (by decide)⟩

/-- C3 counterexample: for the `months` unit the generated range does NOT
begin at the segment start date — for the segment 2020-01-01 → 2021-01-01
the first generated date is the month-end 2020-01-31. -/
theorem C3_first_element_counterexample :
    (dateRange ⟨2020, 1, 1⟩ ⟨2021, 1, 1⟩ TimeUnit.months).head? =
      some ⟨2020, 1, 31⟩ ∧
    (⟨2020, 1, 31⟩ : Date) ≠ (⟨2020, 1, 1⟩ : Date) := by
  exact ⟨by decide, by decide⟩

/-- C3 amended: for every segment and unit, the generated range has exactly
one date per period of the half-open index interval from the start date's
period to the end date's period, in increasing order spaced one unit apart,
every generated date lies in `[start, end)`, and the FIRST date is the
start date itself for `days` but the period-end of the start date's period
for `months`/`years`. -/
theorem C3_dateRange_amended (u : TimeUnit) (s e : Date) (hs : s.Valid)
    (he : e.Valid) (h : unitIdx u s < unitIdx u e) :
    ((dateRange s e u).length = unitIdx u e - unitIdx u s) ∧
    ((dateRange s e u).map (unitIdx u) =
      List.range' (unitIdx u s) (unitIdx u e - unitIdx u s)) ∧
    List.Chain' (fun a b => unitIdx u b = unitIdx u a + 1) (dateRange s e u) ∧
    (∀ d ∈ dateRange s e u, d.Valid ∧ ord s ≤ ord d ∧ ord d < ord e) ∧
    (dateRange s e u).head? = some (match u with
      | .days => s
      | .months => monthEndDate (midx s)
      | .years => yearEndDate s.y) := by
  obtain ⟨hmap, hmem, hhead⟩ := dateRange_spec u s e hs he h
  refine ⟨?_, hmap, chain_of_map_range' _ _ _ _ hmap, hmem, hhead⟩
  have := congrArg List.length hmap
  simpa using this

/-- Witness for `C3_dateRange_amended` at the yearly→monthly segment. -/
theorem C3_dateRange_amended_witness :
    ((dateRange ⟨2020, 1, 1⟩ ⟨2021, 1, 1⟩ TimeUnit.months).length =
      unitIdx TimeUnit.months ⟨2021, 1, 1⟩ -
        unitIdx TimeUnit.months ⟨2020, 1, 1⟩) ∧
    ((dateRange ⟨2020, 1, 1⟩ ⟨2021, 1, 1⟩ TimeUnit.months).map
        (unitIdx TimeUnit.months) =
      List.range' (unitIdx TimeUnit.months ⟨2020, 1, 1⟩)
        (unitIdx TimeUnit.months ⟨2021, 1, 1⟩ -
          unitIdx TimeUnit.months ⟨2020, 1, 1⟩)) ∧
    List.Chain' (fun a b =>
        unitIdx TimeUnit.months b = unitIdx TimeUnit.months a + 1)
      (dateRange ⟨2020, 1, 1⟩ ⟨2021, 1, 1⟩ TimeUnit.months) ∧
    (∀ d ∈ dateRange ⟨2020, 1, 1⟩ ⟨2021, 1, 1⟩ TimeUnit.months,
      d.Valid ∧ ord ⟨2020, 1, 1⟩ ≤ ord d ∧ ord d < ord ⟨2021, 1, 1⟩) ∧
    (dateRange ⟨2020, 1, 1⟩ ⟨2021, 1, 1⟩ TimeUnit.months).head? =
      some (monthEndDate (midx ⟨2020, 1, 1⟩)) :=
  C3_dateRange_amended TimeUnit.months ⟨2020, 1, 1⟩ ⟨2021, 1, 1⟩
    (by decide) (by decide) (by decide)

/-- C1 (code bug): on the strictly contiguous yearly series of scenario A,
the source's `yearly_to_monthly` raises the gap error instead of
succeeding, because it runs the gap check at MONTH granularity on yearly
data (consecutive differences of 12 months) rather than at the series'
native yearly unit; the variant that checks at the native unit passes the
check and produces exactly the claimed values: first row (2020-01, 100),
second row (2020-02, 100 + 50/12), and the original final observation
(2022, 200) as the last row. -/
theorem C1_yearly_to_monthly_gap_bug :
    yearly_to_monthly seriesA = Except.error Err.gap ∧
    gap_check (seriesA.map Obs.date) TimeUnit.years = Except.ok () ∧
    (yearly_to_monthly_nativeCheck seriesA).map
        (fun t => (t.head?, t.get? 1, t.getLast?, t.length)) =
      Except.ok (some ⟨⟨2020, 1, 31⟩, 100⟩,
        some ⟨⟨2020, 2, 29⟩, 100 + 50 / 12⟩,
        some ⟨⟨2022, 1, 1⟩, 200⟩, 25) := by
  exact ⟨by decide!, by decide!, by decide!⟩

/-- C4 counterexample: `fill_gaps` performs no gap check, so the yearly
series with a 2-year jump is NOT rejected — a result table is returned
(the jump's segment is interpolated across two yearly steps). -/
theorem C4_fill_gaps_returns_table :
    fill_gaps seriesB TimeUnit.years =
      [⟨⟨2020, 12, 31⟩, 100⟩, ⟨⟨2021, 12, 31⟩, 150⟩,
       ⟨⟨2022, 1, 1⟩, 200⟩] := by
  decide!

/-- C4 amended: `fill_gaps` does not run the gap detector; on a series with
a two-year jump at the yearly unit it returns an interpolated result table
that bridges the jump (gap-free at the yearly cadence and ending with the
original final observation) rather than surfacing a gap error. -/
theorem C4_fill_gaps_no_gap_check :
    gap_check ((fill_gaps seriesB TimeUnit.years).map Obs.date)
      TimeUnit.years = Except.ok () ∧
    (fill_gaps seriesB TimeUnit.years).getLast? =
      some ⟨⟨2022, 1, 1⟩, 200⟩ ∧
    (fill_gaps seriesB TimeUnit.years).length = 3 := by
  exact ⟨by decide!, by decide!, by decide!⟩

/-- C5 (code bug): `extrapolate` computes the rate window as
`[date_delta(unit, start, past_timesteps), start]`, but `date_delta` ADDS
the offset, so for the documented positive `past_timesteps` the window is
empty, `np.mean` of the empty rate column is NaN (modelled `none`), and
every output value is NaN — not the claimed `[v0, v0+10, v0+20, v0+30]`.
Negating `past_timesteps` (the evident intent: the window of past periods
ending at the anchor) produces exactly the claimed values. -/
theorem C5_extrapolate_window_bug :
    extrapolate seriesC RateType.linear TimeUnit.years ⟨2022, 1, 1⟩ 3 2 =
      Except.ok [(⟨2022, 12, 31⟩, none), (⟨2023, 12, 31⟩, none),
        (⟨2024, 12, 31⟩, none), (⟨2025, 12, 31⟩, none)] ∧
    filter_data seriesC (date_delta TimeUnit.years ⟨2022, 1, 1⟩ 2)
      ⟨2022, 1, 1⟩ true = [] ∧
    extrapolate seriesC RateType.linear TimeUnit.years ⟨2022, 1, 1⟩ 3 (-2) =
      Except.ok [(⟨2022, 12, 31⟩, some 120), (⟨2023, 12, 31⟩, some 130),
        (⟨2024, 12, 31⟩, some 140), (⟨2025, 12, 31⟩, some 150)] := by
  exact ⟨by decide!, by decide!, by decide!⟩

theorem ratio_pos {v0 v1 : ℝ} (hpos : 0 < v0 * v1) : 0 < v1 / v0 := by
  rcases mul_pos_iff.mp hpos with ⟨ha, hb⟩ | ⟨ha, hb⟩
  · exact div_pos hb ha
  · exact div_pos_iff.mpr (Or.inr ⟨hb, ha⟩)

/-- C6: the estimated per-segment rate round-trips exactly: for the linear
model `v0 + k * rate = v1` over the rationals whenever `k ≠ 0`; for the
exponential model, whenever the start value is nonzero and start/end values
have the same sign, the rate is a finite real with `v0 * rate ^ k = v1`
exactly over the reals. -/
theorem C6_rate_round_trip :
    (∀ (v0 v1 : ℚ) (k : Nat), k ≠ 0 →
      v0 + k * linear_rate v0 v1 k = v1) ∧
    (∀ (v0 v1 : ℝ) (k : Nat), 1 ≤ k → v0 ≠ 0 → 0 < v0 * v1 →
      ∃ r, exponential_rate v0 v1 k = some r ∧ v0 * r ^ k = v1) := by
  constructor
  · intro v0 v1 k hk
    have hk2 : (k : ℚ) ≠ 0 := Nat.cast_ne_zero.mpr hk
    unfold linear_rate
    field_simp
  · intro v0 v1 k hk h0 hpos
    have hratio : 0 < v1 / v0 := ratio_pos hpos
    refine ⟨(v1 / v0) ^ ((((k : ℝ)))⁻¹ : ℝ), ?_, ?_⟩
    · unfold exponential_rate
      rw [if_neg]
      push_neg
      exact ⟨h0, le_of_lt hratio⟩
    · have hkR : ((k : ℝ)) ≠ 0 := Nat.cast_ne_zero.mpr (by omega)
      rw [← Real.rpow_natCast ((v1 / v0) ^ ((((k : ℝ)))⁻¹ : ℝ)) k,
        ← Real.rpow_mul (le_of_lt hratio), inv_mul_cancel₀ hkR,
        Real.rpow_one]
      field_simp

/-- Witness for `C6_rate_round_trip`. -/
theorem C6_rate_round_trip_witness :
    ((3 : ℚ) + (2 : Nat) * linear_rate 3 10 2 = 10) ∧
    (∃ r, exponential_rate (1 : ℝ) 4 2 = some r ∧ (1 : ℝ) * r ^ 2 = 4) :=
  ⟨C6_rate_round_trip.1 3 10 2 (by norm_num),
   C6_rate_round_trip.2 1 4 2 (by norm_num) (by norm_num) (by norm_num)⟩

/-- C7: for both rate models, the per-segment interpolated value list has
length exactly `timesteps`, its element `n` is `start + n*rate` (linear,
exact over `ℚ`) or `start * rate^n` (exponential, over `ℝ`), and element 0
is exactly the segment's start value. -/
theorem C7_interpolated_values (v0 v1 : ℚ) (w0 r : ℝ) (k : Nat) :
    ((linearVals v0 v1 k).length = k) ∧
    (∀ n, n < k → (linearVals v0 v1 k).get? n =
      some (v0 + n * linear_rate v0 v1 k)) ∧
    (1 ≤ k → (linearVals v0 v1 k).get? 0 = some v0) ∧
    ((interpolated_exponential w0 r k).length = k) ∧
    (∀ n, n < k → (interpolated_exponential w0 r k).get? n =
      some (w0 * r ^ n)) ∧
    (1 ≤ k → (interpolated_exponential w0 r k).get? 0 = some w0) := by
  refine ⟨linearVals_length v0 v1 k, ?_, ?_,
    by unfold interpolated_exponential
       rw [List.length_map, List.length_range], ?_, ?_⟩
  · intro n hn
    unfold linearVals interpolated_linear
    rw [List.get?_map, List.get?_range hn]
    rfl
  · intro hk
    unfold linearVals interpolated_linear
    rw [List.get?_map, List.get?_range (show 0 < k by omega)]
    norm_num
  · intro n hn
    unfold interpolated_exponential
    rw [List.get?_map, List.get?_range hn]
    rfl
  · intro hk
    unfold interpolated_exponential
    rw [List.get?_map, List.get?_range (show 0 < k by omega)]
    norm_num

/-- Witness for `C7_interpolated_values`. -/
theorem C7_interpolated_values_witness :
    ((linearVals 1 5 2).get? 1 = some (1 + (1 : Nat) * linear_rate 1 5 2)) ∧
    ((linearVals 1 5 2).get? 0 = some 1) ∧
    ((interpolated_exponential 1 2 3).get? 0 = some 1) :=
  ⟨(C7_interpolated_values 1 5 1 2 2).2.1 1 (by norm_num),
   (C7_interpolated_values 1 5 1 2 2).2.2.1 (by norm_num),
   (C7_interpolated_values 1 5 1 2 3).2.2.2.2.2 (by norm_num)⟩

/-- C10: exponential rate estimation with a zero start value never yields a
finite number — the division by zero propagates a non-finite float
(modelled `none`); with a nonzero start value of the same sign as the end
value the rate is finite.  (The spec's `DegenerateRateError` is a mandated
hardening: the source silently propagates the non-finite value rather than
raising.) -/
theorem C10_exponential_rate_degenerate :
    (∀ (v1 : ℝ) (k : Nat), exponential_rate 0 v1 k = none) ∧
    (∀ (v0 v1 : ℝ) (k : Nat), v0 ≠ 0 → 0 < v0 * v1 →
      ∃ r, exponential_rate v0 v1 k = some r) := by
  constructor
  · intro v1 k
    unfold exponential_rate
    rw [if_pos (Or.inl rfl)]
  · intro v0 v1 k h0 hpos
    refine ⟨(v1 / v0) ^ ((((k : ℝ)))⁻¹ : ℝ), ?_⟩
    unfold exponential_rate
    rw [if_neg]
    push_neg
    exact ⟨h0, le_of_lt (ratio_pos hpos)⟩

/-- Witness for `C10_exponential_rate_degenerate`. -/
theorem C10_exponential_rate_degenerate_witness :
    exponential_rate (0 : ℝ) 7 3 = none ∧
    ∃ r, exponential_rate (2 : ℝ) 8 3 = some r :=
  ⟨C10_exponential_rate_degenerate.1 7 3,
   C10_exponential_rate_degenerate.2 2 8 3 (by norm_num) (by norm_num)⟩

theorem forwardRange_length (a : Date) (n : Nat) (u : TimeUnit) :
    (forwardRange a n u).length = n := by
  cases u <;> simp [forwardRange, dayRange_length]

/-- C8 counterexample: the forward date range does NOT start at the anchor
date for the `years` unit — from anchor 2022-01-01 the first generated date
is the year-end 2022-12-31. -/
theorem C8_forward_dates_counterexample :
    ((extrapolated_dataset RateType.linear TimeUnit.years (some 10)
        ⟨2022, 1, 1⟩ 100 3).map Prod.fst).head? = some ⟨2022, 12, 31⟩ ∧
    (⟨2022, 12, 31⟩ : Date) ≠ (⟨2022, 1, 1⟩ : Date) := by
  exact ⟨by decide!, by decide⟩

/-- C8 amended: for every anchor value, finite rate, rate model and
`future_timesteps`, the extrapolation generator produces exactly
`future_timesteps + 1` values with element `n` equal to
`anchor + rate*n` (linear) or `anchor * rate^n` (exponential) and element 0
exactly the anchor value; the paired date range has `future_timesteps + 1`
dates and starts at the anchor date only for the `days` unit — for
`months`/`years` it consists of consecutive period-end dates beginning with
the end of the anchor's own period. -/
theorem C8_extrapolated_dataset_amended (rt : RateType) (u : TimeUnit)
    (r : ℚ) (a : Date) (v : ℚ) (f : Nat) :
    ((extrapolated_dataset rt u (some r) a v f).length = f + 1) ∧
    ((extrapolated_dataset rt u (some r) a v f).map Prod.fst =
      forwardRange a (f + 1) u) ∧
    (∀ n, n ≤ f →
      ((extrapolated_dataset rt u (some r) a v f).map Prod.snd).get? n =
        some (some (match rt with
          | RateType.linear => v + r * n
          | RateType.exponential => v * r ^ n))) ∧
    (((extrapolated_dataset rt u (some r) a v f).map Prod.snd).get? 0 =
      some (some v)) ∧
    (u = TimeUnit.days →
      ((extrapolated_dataset rt u (some r) a v f).map Prod.fst).head? =
        some a) := by
  have hfst : (extrapolated_dataset rt u (some r) a v f).map Prod.fst =
      forwardRange a (f + 1) u := by
    unfold extrapolated_dataset
    exact List.map_fst_zip _ _ (by simp [forwardRange_length])
  have hsnd : (extrapolated_dataset rt u (some r) a v f).map Prod.snd =
      (List.range (f + 1)).map (fun n : Nat =>
        (some (match rt with
          | RateType.linear => v + r * n
          | RateType.exponential => v * r ^ n) : Option ℚ)) := by
    unfold extrapolated_dataset
    rw [List.map_snd_zip]
    · cases rt <;> rfl
    · rw [List.length_map, List.length_range, forwardRange_length]
  refine ⟨?_, hfst, ?_, ?_, ?_⟩
  · have hl := congrArg List.length hfst
    simp only [List.length_map] at hl
    rw [hl, forwardRange_length]
  · intro n hn
    rw [hsnd, List.get?_map, List.get?_range (by omega)]
    cases rt <;> rfl
  · rw [hsnd, List.get?_map, List.get?_range (show 0 < f + 1 by omega)]
    cases rt <;> norm_num
  · intro hu
    subst hu
    rw [hfst]
    show (dayRange a (f + 1)).head? = some a
    rfl

/-- Witness for `C8_extrapolated_dataset_amended`. -/
theorem C8_extrapolated_dataset_amended_witness :
    ((extrapolated_dataset RateType.linear TimeUnit.days (some 10)
        ⟨2022, 1, 1⟩ 100 3).map Prod.snd).get? 2 =
      some (some ((100 : ℚ) + 10 * ((2 : Nat) : ℚ))) ∧
    ((extrapolated_dataset RateType.linear TimeUnit.days (some 10)
        ⟨2022, 1, 1⟩ 100 3).map Prod.fst).head? = some ⟨2022, 1, 1⟩ :=
  ⟨(C8_extrapolated_dataset_amended RateType.linear TimeUnit.days 10
      ⟨2022, 1, 1⟩ 100 3).2.2.1 2 (by norm_num),
   (C8_extrapolated_dataset_amended RateType.linear TimeUnit.days 10
      ⟨2022, 1, 1⟩ 100 3).2.2.2.2 rfl⟩

end Imputime
